import Mathlib

/-!
# Verification of `station_uptime.py`

A shallow embedding of the station-uptime program: the document parser,
the interval merger, the uptime calculator and the report emitter, together
with proofs of the specified properties.

Conventions of the embedding:
* Python `int` is modelled by `Int` (arbitrary precision in both).
* Python's stable ascending `list.sort()` on pairs is modelled by
  `List.insertionSort` under the lexicographic order `pairR` (a stable sort
  into the same order).
* Python dicts keyed by integers are modelled by association lists
  (`station_to_chargers`), by an updatable function (`charger_to_station`,
  which is only ever point-updated and looked up) and by a flat list of
  records (`reports`, where `reports.get(cid, [])` becomes a filter).
* Python strings are modelled by `String`; `str.split()`, `str.strip()`,
  `str.lower()`, `str.startswith` and `int(...)` are modelled by structural
  functions on the underlying character list so that concrete documents
  evaluate inside the kernel.
* Exceptions are modelled by `Except String`; `main` is modelled by `run`,
  returning the exit status together with the list of stdout lines.
-/

namespace StationUptime

/-! ## Interval merging (`merge_intervals`, lines 77-94) -/

/-- Lexicographic order on pairs: the order Python's `list.sort()` uses on
`(start, end)` tuples. -/
def pairR (p q : Int × Int) : Prop :=
  p.1 < q.1 ∨ (p.1 = q.1 ∧ p.2 ≤ q.2)

instance : DecidableRel pairR := fun p q => by
  unfold pairR; infer_instance

instance : IsTotal (Int × Int) pairR :=
  ⟨by intro a b; unfold pairR; omega⟩

instance : IsTrans (Int × Int) pairR :=
  ⟨by intro a b c; unfold pairR; omega⟩

instance : IsAntisymm (Int × Int) pairR :=
  ⟨by
    intro a b h h'
    obtain ⟨a1, a2⟩ := a
    obtain ⟨b1, b2⟩ := b
    unfold pairR at h h'
    simp only [Prod.mk.injEq]
    omega⟩

/-- The sweep loop of `merge_intervals` (lines 85-93): `cs, ce` is the open
current interval, the list holds the remaining sorted intervals, and the
returned list is `merged` with the final open interval emitted. -/
def sweep : Int → Int → List (Int × Int) → List (Int × Int)
  | cs, ce, [] => [(cs, ce)]
  | cs, ce, (s, e) :: rest =>
    if s ≤ ce then
      if ce < e then sweep cs e rest else sweep cs ce rest
    else (cs, ce) :: sweep s e rest

/-- `merge_intervals` (lines 77-94): drop degenerate intervals, sort, sweep. -/
def merge_intervals (intervals : List (Int × Int)) : List (Int × Int) :=
  if intervals.isEmpty then []
  else
    let norm := intervals.filter fun p => p.2 > p.1
    if norm.isEmpty then []
    else
      match norm.insertionSort pairR with
      | [] => []
      | (cs, ce) :: rest => sweep cs ce rest

/-- `clipped_total` (lines 96-103): total length of the intervals clipped to
`[clip_start, clip_end]`, written as a structural sum over the list. -/
def clipped_total : List (Int × Int) → Int → Int → Int
  | [], _, _ => 0
  | (s, e) :: rest, clip_start, clip_end =>
    let a := max s clip_start
    let b := min e clip_end
    (if b > a then b - a else 0) + clipped_total rest clip_start clip_end

/-! ## Uptime calculation (`compute_station_uptime`, lines 105-133) -/

/-- Line 130: `if pct < 0: pct = 0`. -/
def clampLow (pct : Int) : Int := if pct < 0 then 0 else pct

/-- Line 131: `if pct > 100: pct = 100`. -/
def clampHigh (pct : Int) : Int := if pct > 100 then 100 else pct

/-- The loop body of `compute_station_uptime` (lines 109-132) applied to the
flat list of reports `(s, e, up)` collected from one station's chargers.
`min?`/`max?` model Python's `min`/`max` on the (possibly empty) lists
`all_starts`/`all_ends`; `Int.fdiv` models Python's floor division `//`. -/
def station_pct (reps : List (Int × Int × Bool)) : Int :=
  match (reps.map fun r => r.1).min?, (reps.map fun r => r.2.1).max? with
  | some window_start, some window_end =>
    if window_end ≤ window_start then 0
    else
      clampHigh (clampLow
        ((clipped_total
            (merge_intervals ((reps.filter fun r => r.2.2).map fun r => (r.1, r.2.1)))
            window_start window_end * 100).fdiv
          (window_end - window_start)))
  | _, _ => 0

/-- `station_to_chargers.get(station_id, set())`: first association, else `[]`. -/
def lookupChargers (stc : List (Int × List Int)) (sid : Int) : List Int :=
  match stc.find? fun p => p.1 == sid with
  | some p => p.2
  | none => []

/-- `reports.get(cid, [])`: the reports recorded for charger `cid`, in order. -/
def reportsFor (reports : List (Int × Int × Int × Bool)) (cid : Int) :
    List (Int × Int × Bool) :=
  (reports.filter fun r => r.1 == cid).map fun r => r.2

/-- The report-collection loop (lines 112-117): all reports of all chargers
belonging to station `sid`, flattened in iteration order. -/
def collectFor (stc : List (Int × List Int)) (reports : List (Int × Int × Int × Bool))
    (sid : Int) : List (Int × Int × Bool) :=
  (lookupChargers stc sid).flatMap (reportsFor reports)

/-- `compute_station_uptime` (lines 105-133): one `(station_id, pct)` entry per
station, iterated in ascending station-id order (`sorted(...keys())`). -/
def compute_station_uptime (stc : List (Int × List Int))
    (reports : List (Int × Int × Int × Bool)) : List (Int × Int) :=
  ((stc.map Prod.fst).insertionSort (· ≤ ·)).map fun sid =>
    (sid, station_pct (collectFor stc reports sid))

/-! ## String primitives

Structural models of the Python string operations used by the parser. -/

/-- Model of `str.split()`: split on whitespace runs, dropping empty pieces.
The accumulator holds the current token reversed. -/
def splitWsAux : List Char → List Char → List (List Char)
  | [], acc => if acc.isEmpty then [] else [acc.reverse]
  | c :: cs, acc =>
    if c.isWhitespace then
      if acc.isEmpty then splitWsAux cs [] else acc.reverse :: splitWsAux cs []
    else splitWsAux cs (c :: acc)

/-- `ln.split()` on a Python string. -/
def tokens (ln : String) : List String :=
  (splitWsAux ln.data []).map String.mk

/-- Model of `str.strip()`: drop leading and trailing whitespace. -/
def trimLine (s : String) : String :=
  String.mk (((s.data.dropWhile Char.isWhitespace).reverse.dropWhile
    Char.isWhitespace).reverse)

/-- `s.startswith(c)` for a one-character prefix. -/
def startsWithChar (s : String) (c : Char) : Bool :=
  match s.data with
  | [] => false
  | c' :: _ => c' == c

/-- Digit-run parser underlying `int(...)`: `none` on a non-digit or on an
empty run (the accumulator is `none` until the first digit is consumed). -/
def digitsToNat? : List Char → Option Nat → Option Nat
  | [], acc => acc
  | c :: cs, acc =>
    if c.isDigit then
      digitsToNat? cs (some ((acc.getD 0) * 10 + (c.toNat - '0'.toNat)))
    else none

/-- Model of Python `int(tok)` for a whitespace-free token: optional sign
followed by a non-empty run of decimal digits. -/
def toInt? (s : String) : Option Int :=
  match s.data with
  | '-' :: cs => (digitsToNat? cs none).map fun n => -(n : Int)
  | '+' :: cs => (digitsToNat? cs none).map fun n => (n : Int)
  | cs => (digitsToNat? cs none).map fun n => (n : Int)

/-- ASCII lower-casing of one character (`str.lower()`). -/
def lowerChar (c : Char) : Char :=
  if 'A' ≤ c ∧ c ≤ 'Z' then Char.ofNat (c.toNat + 32) else c

/-- Model of `str.lower()`. -/
def lowerStr (s : String) : String :=
  String.mk (s.data.map lowerChar)

/-- Decimal digits of `n`, least significant first; the first argument is
structural fuel (any fuel `≥ n` is exact). -/
def natToRevDigits : Nat → Nat → List Char
  | 0, _ => []
  | _, 0 => []
  | fuel + 1, n + 1 =>
    Char.ofNat (((n + 1) % 10) + 48) :: natToRevDigits fuel ((n + 1) / 10)

/-- Decimal rendering of a natural number. -/
def natToString (n : Nat) : String :=
  if n = 0 then "0" else String.mk (natToRevDigits (n + 1) n).reverse

/-- Decimal rendering of an integer, as Python's `str(int)` / f-strings. -/
def intToString (i : Int) : String :=
  match i with
  | .ofNat n => natToString n
  | .negSucc n => String.mk ('-' :: (natToString (n + 1)).data)

/-! ## Document parser (`parse_input`, lines 5-75) -/

/-- The mutable parser state of `parse_input`: the mode flag and the three
accumulating containers. -/
structure PState where
  state : Nat
  station_to_chargers : List (Int × List Int)
  charger_to_station : Int → Option Int
  reports : List (Int × Int × Int × Bool)

/-- The parser state before any line is consumed (lines 9-12). -/
def initState : PState :=
  { state := 0, station_to_chargers := [], charger_to_station := fun _ => none,
    reports := [] }

/-- `int(tok)` over all charger-id tokens of a station line (lines 39-44):
all must parse before any binding happens. -/
def parseChargerIds : List String → Option (List Int)
  | [] => some []
  | t :: rest =>
    match toInt? t with
    | none => none
    | some c => (parseChargerIds rest).map fun cs => c :: cs

/-- Lines 45-46: `if station_id not in station_to_chargers:
station_to_chargers[station_id] = set()`. -/
def ensureStation (stc : List (Int × List Int)) (sid : Int) : List (Int × List Int) :=
  if (stc.find? fun p => p.1 == sid).isSome then stc else stc ++ [(sid, [])]

/-- Line 51: `station_to_chargers[station_id].add(cid)` (set semantics). -/
def addCharger (stc : List (Int × List Int)) (sid cid : Int) : List (Int × List Int) :=
  stc.map fun p =>
    if p.1 = sid then (p.1, if cid ∈ p.2 then p.2 else p.2 ++ [cid]) else p

/-- The binding loop of a station line (lines 47-51): check each charger id
against `charger_to_station`, then record both directions of the ownership. -/
def bindChargers (sid : Int) :
    (Int → Option Int) → List (Int × List Int) → List Int →
      Except String ((Int → Option Int) × List (Int × List Int))
  | cts, stc, [] => .ok (cts, stc)
  | cts, stc, cid :: rest =>
    match cts cid with
    | some s2 =>
      if s2 ≠ sid then
        .error ("Charger " ++ intToString cid ++ " appears under multiple stations.")
      else
        bindChargers sid (fun c => if c = cid then some sid else cts c)
          (addCharger stc sid cid) rest
    | none =>
      bindChargers sid (fun c => if c = cid then some sid else cts c)
        (addCharger stc sid cid) rest

/-- One iteration of the `while` loop of `parse_input` (lines 15-73) on an
already-stripped line. -/
def processLine (st : PState) (ln : String) : Except String PState :=
  if ln = "" then .ok st
  else if startsWithChar ln '#' then .ok st
  else if ln = "[Stations]" then .ok { st with state := 1 }
  else if ln = "[Charger Availability Reports]" then .ok { st with state := 2 }
  else if st.state = 1 then
    match tokens ln with
    | [] => .ok st
    | t0 :: rest =>
      match toInt? t0 with
      | none => .error ("Invalid station line (station id): " ++ ln)
      | some station_id =>
        match parseChargerIds rest with
        | none => .error ("Invalid charger id on station line: " ++ ln)
        | some charger_ids =>
          match bindChargers station_id st.charger_to_station
              (ensureStation st.station_to_chargers station_id) charger_ids with
          | .error msg => .error msg
          | .ok (cts, stc) =>
            .ok { st with charger_to_station := cts, station_to_chargers := stc }
  else if st.state = 2 then
    match tokens ln with
    | [] => .ok st
    | t0 :: rest =>
      if startsWithChar t0 '[' then .ok st
      else
        match rest with
        | [t1, t2, t3] =>
          match toInt? t0, toInt? t1, toInt? t2 with
          | some cid, some s, some e =>
            if lowerStr t3 = "true" then
              .ok { st with reports := st.reports ++ [(cid, s, e, true)] }
            else if lowerStr t3 = "false" then
              .ok { st with reports := st.reports ++ [(cid, s, e, false)] }
            else .error ("Invalid up flag (must be true/false): " ++ ln)
          | _, _, _ => .error ("Invalid numeric field in report line: " ++ ln)
        | _ => .error ("Invalid report line (need 4 fields): " ++ ln)
  else .ok st

/-- The fail-fast line loop of `parse_input`. -/
def parse_lines : PState → List String → Except String PState
  | st, [] => .ok st
  | st, ln :: rest =>
    match processLine st ln with
    | .error e => .error e
    | .ok st' => parse_lines st' rest

/-- `parse_input` (lines 5-75): strip every line, then run the loop. -/
def parse_input (lines : List String) : Except String PState :=
  parse_lines initState (lines.map trimLine)

/-! ## Report emitter / `main` (lines 135-149) -/

/-- The output loop of `main` (lines 143-144): `print(f"{sid} {pct}")`. -/
def output_lines (results : List (Int × Int)) : List String :=
  results.map fun r => intToString r.1 ++ " " ++ intToString r.2

/-- `main` on an already-opened document (lines 140-149), returning the exit
status and the stdout lines: `error` is the stdout sentinel of the except
branch. -/
def run (lines : List String) : Nat × List String :=
  match parse_input lines with
  | .error _ => (1, ["error"])
  | .ok st =>
    (0, output_lines (compute_station_uptime st.station_to_chargers st.reports))

/-! ## Covered points -/

/-- `x` lies in the half-open interval `p`. -/
def coversPoint (p : Int × Int) (x : Int) : Prop :=
  p.1 ≤ x ∧ x < p.2

/-- `x` is covered by some interval of the list. -/
def covers (l : List (Int × Int)) (x : Int) : Prop :=
  ∃ p ∈ l, coversPoint p x

/-! ## Lemmas about the interval merger -/

theorem coversPoint_mk {a b x : Int} : coversPoint (a, b) x ↔ a ≤ x ∧ x < b :=
  Iff.rfl

theorem covers_nil {x : Int} : ¬ covers [] x := by
  simp [covers]

theorem covers_cons {p : Int × Int} {l : List (Int × Int)} {x : Int} :
    covers (p :: l) x ↔ coversPoint p x ∨ covers l x := by
  simp [covers]

theorem covers_of_perm {l l' : List (Int × Int)} (h : l.Perm l') {x : Int} :
    covers l x ↔ covers l' x := by
  unfold covers
  exact ⟨fun ⟨p, hp, hc⟩ => ⟨p, h.mem_iff.mp hp, hc⟩,
    fun ⟨p, hp, hc⟩ => ⟨p, h.mem_iff.mpr hp, hc⟩⟩

theorem pairR_fst_le {p q : Int × Int} (h : pairR p q) : p.1 ≤ q.1 := by
  unfold pairR at h; omega

/-- Points covered by the sweep: the current interval plus the rest, provided
the remaining starts are sorted and at least `cs`. -/
theorem sweep_covers : ∀ (l : List (Int × Int)) (cs ce x : Int),
    (∀ p ∈ l, cs ≤ p.1) → l.Pairwise (fun p q => p.1 ≤ q.1) →
    (covers (sweep cs ce l) x ↔ (cs ≤ x ∧ x < ce) ∨ covers l x)
  | [], cs, ce, x, _, _ => by
    simp [sweep, covers, coversPoint]
  | (s, e) :: rest, cs, ce, x, h1, h2 => by
    have hcs : cs ≤ s := h1 (s, e) (List.mem_cons_self _ _)
    have h1' : ∀ p ∈ rest, cs ≤ p.1 := fun p hp => h1 p (List.mem_cons_of_mem _ hp)
    have hs' : ∀ p ∈ rest, s ≤ p.1 := (List.pairwise_cons.mp h2).1
    have h2' : rest.Pairwise (fun p q => p.1 ≤ q.1) := (List.pairwise_cons.mp h2).2
    rw [covers_cons, coversPoint_mk]
    show covers (if s ≤ ce then if ce < e then sweep cs e rest else sweep cs ce rest
        else (cs, ce) :: sweep s e rest) x ↔ _
    by_cases hse : s ≤ ce
    · rw [if_pos hse]
      by_cases hee : ce < e
      · rw [if_pos hee, sweep_covers rest cs e x h1' h2']
        constructor
        · rintro (⟨hx1, hx2⟩ | hc)
          · by_cases hxe : x < ce
            · exact Or.inl ⟨hx1, hxe⟩
            · exact Or.inr (Or.inl ⟨by omega, hx2⟩)
          · exact Or.inr (Or.inr hc)
        · rintro (⟨hx1, hx2⟩ | ⟨hx1, hx2⟩ | hc)
          · exact Or.inl ⟨hx1, by omega⟩
          · exact Or.inl ⟨by omega, hx2⟩
          · exact Or.inr hc
      · rw [if_neg hee, sweep_covers rest cs ce x h1' h2']
        constructor
        · rintro (⟨hx1, hx2⟩ | hc)
          · exact Or.inl ⟨hx1, hx2⟩
          · exact Or.inr (Or.inr hc)
        · rintro (⟨hx1, hx2⟩ | ⟨hx1, hx2⟩ | hc)
          · exact Or.inl ⟨hx1, hx2⟩
          · exact Or.inl ⟨by omega, by omega⟩
          · exact Or.inr hc
    · rw [if_neg hse, covers_cons, coversPoint_mk,
        sweep_covers rest s e x hs' h2']

/-- Structure of the sweep output: non-degenerate intervals, strictly
separated, with starts at least `cs`. -/
theorem sweep_good : ∀ (l : List (Int × Int)) (cs ce : Int),
    (∀ p ∈ l, p.1 < p.2) → (∀ p ∈ l, cs ≤ p.1) →
    l.Pairwise (fun p q => p.1 ≤ q.1) → cs < ce →
    (∀ p ∈ sweep cs ce l, p.1 < p.2) ∧
      (sweep cs ce l).Pairwise (fun p q => p.2 < q.1) ∧
      (∀ p ∈ sweep cs ce l, cs ≤ p.1)
  | [], cs, ce, _, _, _, hce => by
    refine ⟨?_, ?_, ?_⟩ <;> simp [sweep, hce]
  | (s, e) :: rest, cs, ce, hpos, h1, h2, hce => by
    have hcs : cs ≤ s := h1 (s, e) (List.mem_cons_self _ _)
    have hse' : s < e := hpos (s, e) (List.mem_cons_self _ _)
    have hpos' : ∀ p ∈ rest, p.1 < p.2 := fun p hp => hpos p (List.mem_cons_of_mem _ hp)
    have h1' : ∀ p ∈ rest, cs ≤ p.1 := fun p hp => h1 p (List.mem_cons_of_mem _ hp)
    have hs' : ∀ p ∈ rest, s ≤ p.1 := (List.pairwise_cons.mp h2).1
    have h2' : rest.Pairwise (fun p q => p.1 ≤ q.1) := (List.pairwise_cons.mp h2).2
    simp only [sweep]
    by_cases hse : s ≤ ce
    · rw [if_pos hse]
      by_cases hee : ce < e
      · rw [if_pos hee]
        exact sweep_good rest cs e hpos' h1' h2' (by omega)
      · rw [if_neg hee]
        exact sweep_good rest cs ce hpos' h1' h2' hce
    · rw [if_neg hse]
      obtain ⟨ih1, ih2, ih3⟩ := sweep_good rest s e hpos' hs' h2' hse'
      refine ⟨?_, ?_, ?_⟩
      · intro p hp
        rcases List.mem_cons.mp hp with h | h
        · subst h; exact hce
        · exact ih1 p h
      · exact List.pairwise_cons.mpr
          ⟨fun q hq => by show ce < q.1; have := ih3 q hq; omega, ih2⟩
      · intro p hp
        rcases List.mem_cons.mp hp with h | h
        · subst h; exact le_refl cs
        · have := ih3 p h; exact le_trans hcs this

/-- Sweeping a list already separated from the current interval is the
identity. -/
theorem sweep_of_sep : ∀ (l : List (Int × Int)) (cs ce : Int),
    List.Chain' (fun p q : Int × Int => p.2 < q.1) ((cs, ce) :: l) →
    sweep cs ce l = (cs, ce) :: l
  | [], _, _, _ => rfl
  | (s, e) :: rest, cs, ce, h => by
    have h1 : ce < s := (List.chain'_cons.mp h).1
    have h2 : List.Chain' (fun p q : Int × Int => p.2 < q.1) ((s, e) :: rest) :=
      (List.chain'_cons.mp h).2
    show (if s ≤ ce then _ else (cs, ce) :: sweep s e rest) = _
    rw [if_neg (by omega), sweep_of_sep rest s e h2]

/-- `merge_intervals` with the emptiness guards collapsed. -/
theorem merge_intervals_eq (l : List (Int × Int)) :
    merge_intervals l =
      match (l.filter fun p => p.2 > p.1).insertionSort pairR with
      | [] => []
      | (cs, ce) :: rest => sweep cs ce rest := by
  unfold merge_intervals
  cases l with
  | nil => rfl
  | cons a t =>
    simp only [List.isEmpty_cons, Bool.false_eq_true, if_false]
    by_cases h : ((a :: t).filter fun p => p.2 > p.1).isEmpty
    · rw [if_pos h]
      rw [List.isEmpty_iff] at h
      rw [h]
      rfl
    · rw [if_neg h]

/-- The merger's output consists of non-degenerate intervals and is strictly
separated. -/
theorem merge_intervals_good (l : List (Int × Int)) :
    (∀ p ∈ merge_intervals l, p.1 < p.2) ∧
      (merge_intervals l).Pairwise (fun p q => p.2 < q.1) := by
  rw [merge_intervals_eq]
  have hsorted : ((l.filter fun p => p.2 > p.1).insertionSort pairR).Pairwise pairR :=
    List.sorted_insertionSort pairR _
  have hpos : ∀ p ∈ (l.filter fun p => p.2 > p.1).insertionSort pairR, p.1 < p.2 := by
    intro p hp
    have hm : p ∈ l.filter fun p => p.2 > p.1 :=
      (List.perm_insertionSort pairR _).mem_iff.mp hp
    have := List.of_mem_filter hm
    simpa using this
  cases h : (l.filter fun p => p.2 > p.1).insertionSort pairR with
  | nil => simp
  | cons hd tl =>
    obtain ⟨cs, ce⟩ := hd
    rw [h] at hsorted hpos
    have hce : cs < ce := hpos (cs, ce) (List.mem_cons_self _ _)
    have hpos' : ∀ p ∈ tl, p.1 < p.2 := fun p hp => hpos p (List.mem_cons_of_mem _ hp)
    have hcs : ∀ p ∈ tl, cs ≤ p.1 := fun p hp =>
      pairR_fst_le ((List.pairwise_cons.mp hsorted).1 p hp)
    have htl : tl.Pairwise (fun p q => p.1 ≤ q.1) :=
      ((List.pairwise_cons.mp hsorted).2).imp pairR_fst_le
    obtain ⟨g1, g2, _⟩ := sweep_good tl cs ce hpos' hcs htl hce
    exact ⟨g1, g2⟩

/-- Points covered by the merger's output are exactly the points covered by
the non-degenerate input intervals. -/
theorem merge_intervals_covers (l : List (Int × Int)) (x : Int) :
    covers (merge_intervals l) x ↔ covers (l.filter fun p => p.2 > p.1) x := by
  rw [merge_intervals_eq]
  have hperm : ((l.filter fun p => p.2 > p.1).insertionSort pairR).Perm
      (l.filter fun p => p.2 > p.1) := List.perm_insertionSort pairR _
  have hsorted : ((l.filter fun p => p.2 > p.1).insertionSort pairR).Pairwise pairR :=
    List.sorted_insertionSort pairR _
  rw [← covers_of_perm hperm]
  cases h : (l.filter fun p => p.2 > p.1).insertionSort pairR with
  | nil => rfl
  | cons hd tl =>
    obtain ⟨cs, ce⟩ := hd
    rw [h] at hsorted
    have hcs : ∀ p ∈ tl, cs ≤ p.1 := fun p hp =>
      pairR_fst_le ((List.pairwise_cons.mp hsorted).1 p hp)
    have htl : tl.Pairwise (fun p q => p.1 ≤ q.1) :=
      ((List.pairwise_cons.mp hsorted).2).imp pairR_fst_le
    rw [sweep_covers tl cs ce x hcs htl, covers_cons, coversPoint_mk]

/-- A separated list of non-degenerate intervals is a fixed point of the
merger. -/
theorem merge_intervals_of_good (m : List (Int × Int))
    (hpos : ∀ p ∈ m, p.1 < p.2)
    (hsep : m.Pairwise fun p q => p.2 < q.1) : merge_intervals m = m := by
  rw [merge_intervals_eq]
  have hfil : (m.filter fun p => p.2 > p.1) = m :=
    List.filter_eq_self.mpr fun a ha => by simpa using hpos a ha
  rw [hfil]
  have hsorted : m.Pairwise pairR :=
    hsep.imp_of_mem fun {p q} hp _ h => Or.inl (by have := hpos p hp; omega)
  rw [List.Sorted.insertionSort_eq hsorted]
  cases m with
  | nil => rfl
  | cons hd tl =>
    obtain ⟨cs, ce⟩ := hd
    exact sweep_of_sep tl cs ce hsep.chain'

/-- The merger does not depend on the input order. -/
theorem merge_intervals_of_perm {l l' : List (Int × Int)} (h : l.Perm l') :
    merge_intervals l = merge_intervals l' := by
  have hfil : (l.filter fun p => p.2 > p.1).Perm (l'.filter fun p => p.2 > p.1) :=
    h.filter _
  have hperm : ((l.filter fun p => p.2 > p.1).insertionSort pairR).Perm
      ((l'.filter fun p => p.2 > p.1).insertionSort pairR) :=
    (List.perm_insertionSort pairR _).trans
      (hfil.trans (List.perm_insertionSort pairR _).symm)
  have heq : (l.filter fun p => p.2 > p.1).insertionSort pairR
      = (l'.filter fun p => p.2 > p.1).insertionSort pairR :=
    List.eq_of_perm_of_sorted hperm (List.sorted_insertionSort pairR _)
      (List.sorted_insertionSort pairR _)
  rw [merge_intervals_eq, merge_intervals_eq, heq]

/-! ## Lemmas about `clipped_total` -/

theorem clipped_total_congr : ∀ (m : List (Int × Int)) (a a' b : Int),
    (∀ p ∈ m, max p.1 a = max p.1 a') →
    clipped_total m a b = clipped_total m a' b
  | [], _, _, _, _ => rfl
  | (s, e) :: rest, a, a', b, h => by
    have h0 : max s a = max s a' := h (s, e) (List.mem_cons_self _ _)
    simp only [clipped_total]
    rw [h0, clipped_total_congr rest a a' b fun p hp => h p (List.mem_cons_of_mem _ hp)]

theorem clipped_total_nonneg : ∀ (m : List (Int × Int)) (a b : Int),
    0 ≤ clipped_total m a b
  | [], _, _ => le_refl 0
  | (s, e) :: rest, a, b => by
    have ih := clipped_total_nonneg rest a b
    simp only [clipped_total]
    by_cases h : min e b > max s a
    · rw [if_pos h]; omega
    · rw [if_neg h]; omega

/-- The clipped total of a separated list of non-degenerate intervals never
exceeds the window length. -/
theorem clipped_total_le : ∀ (m : List (Int × Int)) (a b : Int),
    (∀ p ∈ m, p.1 < p.2) → m.Pairwise (fun p q => p.2 < q.1) → a ≤ b →
    clipped_total m a b ≤ b - a
  | [], a, b, _, _, hab => by simp only [clipped_total]; omega
  | (s, e) :: rest, a, b, hpos, hsep, hab => by
    have hpos' : ∀ p ∈ rest, p.1 < p.2 := fun p hp => hpos p (List.mem_cons_of_mem _ hp)
    have hsep' : rest.Pairwise fun p q => p.2 < q.1 := (List.pairwise_cons.mp hsep).2
    have hgt : ∀ p ∈ rest, e < p.1 := fun p hp => (List.pairwise_cons.mp hsep).1 p hp
    have hcongr : clipped_total rest a b = clipped_total rest (max a (min e b)) b := by
      apply clipped_total_congr
      intro p hp
      have he := hgt p hp
      omega
    have ih := clipped_total_le rest (max a (min e b)) b hpos' hsep' (by omega)
    simp only [clipped_total]
    rw [hcongr]
    by_cases h : min e b > max s a
    · rw [if_pos h]; omega
    · rw [if_neg h]; omega

/-! ## `min?`/`max?` under permutations -/

theorem min?_of_perm {l l' : List Int} (h : l.Perm l') : l.min? = l'.min? := by
  haveI : Std.Antisymm ((· : Int) ≤ ·) := ⟨@fun a b h1 h2 => le_antisymm h1 h2⟩
  cases h1 : l.min? with
  | none =>
    rw [List.min?_eq_none_iff] at h1
    subst h1
    symm
    rw [List.min?_eq_none_iff]
    exact h.symm.eq_nil
  | some a =>
    rw [List.min?_eq_some_iff (fun a => le_refl a) (fun a b => min_choice a b)
      (fun a b c => le_min_iff)] at h1
    symm
    rw [List.min?_eq_some_iff (fun a => le_refl a) (fun a b => min_choice a b)
      (fun a b c => le_min_iff)]
    exact ⟨h.mem_iff.mp h1.1, fun b hb => h1.2 b (h.mem_iff.mpr hb)⟩

theorem max?_of_perm {l l' : List Int} (h : l.Perm l') : l.max? = l'.max? := by
  haveI : Std.Antisymm ((· : Int) ≤ ·) := ⟨@fun a b h1 h2 => le_antisymm h1 h2⟩
  cases h1 : l.max? with
  | none =>
    rw [List.max?_eq_none_iff] at h1
    subst h1
    symm
    rw [List.max?_eq_none_iff]
    exact h.symm.eq_nil
  | some a =>
    rw [List.max?_eq_some_iff (fun a => le_refl a) (fun a b => max_choice a b)
      (fun a b c => max_le_iff)] at h1
    symm
    rw [List.max?_eq_some_iff (fun a => le_refl a) (fun a b => max_choice a b)
      (fun a b c => max_le_iff)]
    exact ⟨h.mem_iff.mp h1.1, fun b hb => h1.2 b (h.mem_iff.mpr hb)⟩

/-- The per-station percentage does not depend on the order in which the
station's reports were collected. -/
theorem station_pct_of_perm {reps reps' : List (Int × Int × Bool)}
    (h : reps.Perm reps') : station_pct reps = station_pct reps' := by
  have hmin : (reps.map fun r => r.1).min? = (reps'.map fun r => r.1).min? :=
    min?_of_perm (h.map _)
  have hmax : (reps.map fun r => r.2.1).max? = (reps'.map fun r => r.2.1).max? :=
    max?_of_perm (h.map _)
  have hmerge : merge_intervals ((reps.filter fun r => r.2.2).map fun r => (r.1, r.2.1))
      = merge_intervals ((reps'.filter fun r => r.2.2).map fun r => (r.1, r.2.1)) :=
    merge_intervals_of_perm ((h.filter _).map _)
  unfold station_pct
  rw [hmin, hmax, hmerge]

/-! ## Claim theorems -/

/-- C1: for every finite list of integer `(start, end)` pairs, the output of
`merge_intervals` is a sequence of pairwise-disjoint intervals sorted
ascending by start, whose union of covered points equals the union of covered
points of the input intervals restricted to those with `start < end`; the
empty input yields the empty output. -/
theorem merge_intervals_spec (l : List (Int × Int)) :
    ((merge_intervals l).Pairwise fun p q =>
        p.1 < q.1 ∧ ∀ x : Int, ¬(coversPoint p x ∧ coversPoint q x)) ∧
      (∀ x : Int, covers (merge_intervals l) x ↔ covers (l.filter fun p => p.2 > p.1) x) ∧
      (l = [] → merge_intervals l = []) := by
  refine ⟨?_, merge_intervals_covers l, fun h => by rw [h]; rfl⟩
  have hg := merge_intervals_good l
  refine hg.2.imp_of_mem ?_
  intro p q hp hq hpq
  have hp2 := hg.1 p hp
  refine ⟨by omega, fun x hx => ?_⟩
  have a1 : p.1 ≤ x := hx.1.1
  have a2 : x < p.2 := hx.1.2
  have a3 : q.1 ≤ x := hx.2.1
  omega

/-- C7: the interval merger is idempotent: merging an already-merged list
yields that same list. -/
theorem merge_intervals_idem (l : List (Int × Int)) :
    merge_intervals (merge_intervals l) = merge_intervals l :=
  merge_intervals_of_good _ (merge_intervals_good l).1 (merge_intervals_good l).2

/-- C8: the merger's output is invariant under permutation of its input, and
consequently a station's percentage does not depend on the order in which its
reports were collected. -/
theorem merge_intervals_perm_invariant (l l' : List (Int × Int))
    (reps reps' : List (Int × Int × Bool)) (hl : l.Perm l') (hr : reps.Perm reps') :
    merge_intervals l = merge_intervals l' ∧ station_pct reps = station_pct reps' :=
  ⟨merge_intervals_of_perm hl, station_pct_of_perm hr⟩

theorem merge_intervals_perm_invariant_witness :
    merge_intervals [((0:Int), (10:Int)), (5, 20)]
        = merge_intervals [((5:Int), (20:Int)), (0, 10)] ∧
      station_pct [((0:Int), (100:Int), true), (50, 150, false)]
        = station_pct [((50:Int), (150:Int), false), (0, 100, true)] :=
  merge_intervals_perm_invariant [(0, 10), (5, 20)] [(5, 20), (0, 10)]
    [(0, 100, true), (50, 150, false)] [(50, 150, false), (0, 100, true)]
    (by decide) (by decide)

/-- C2: for every station with at least one report and a positive window, the
computed uptime equals `floor(covered_duration * 100 / window_duration)`
(floor division), the result lies in `[0, 100]`, and the final clamp never
changes the value. -/
theorem station_pct_spec (reps : List (Int × Int × Bool)) (ws we : Int)
    (hmin : (reps.map fun r => r.1).min? = some ws)
    (hmax : (reps.map fun r => r.2.1).max? = some we)
    (hw : ws < we) :
    station_pct reps =
      (clipped_total
          (merge_intervals ((reps.filter fun r => r.2.2).map fun r => (r.1, r.2.1)))
          ws we * 100).fdiv (we - ws) ∧
      0 ≤ station_pct reps ∧ station_pct reps ≤ 100 := by
  unfold station_pct
  rw [hmin, hmax]
  dsimp only
  rw [if_neg (by omega : ¬ we ≤ ws)]
  set m := merge_intervals ((reps.filter fun r => r.2.2).map fun r => (r.1, r.2.1))
    with hm
  have hct0 : 0 ≤ clipped_total m ws we := clipped_total_nonneg m ws we
  have hctle : clipped_total m ws we ≤ we - ws :=
    clipped_total_le m ws we (hm ▸ (merge_intervals_good _).1)
      (hm ▸ (merge_intervals_good _).2) (by omega)
  set q := (clipped_total m ws we * 100).fdiv (we - ws) with hq
  have hq_ediv : q = clipped_total m ws we * 100 / (we - ws) :=
    Int.fdiv_eq_ediv _ (by omega)
  have hq0 : 0 ≤ q := by
    rw [hq_ediv]
    exact Int.ediv_nonneg (by omega) (by omega)
  have hq100 : q ≤ 100 := by
    rw [hq_ediv]
    have h1 : clipped_total m ws we * 100 ≤ (we - ws) * 100 := by omega
    have h2 := Int.ediv_le_ediv (by omega : (0:Int) < we - ws) h1
    have h3 : (we - ws) * 100 / (we - ws) = 100 := by
      rw [mul_comm]
      exact Int.mul_ediv_cancel 100 (by omega)
    rw [h3] at h2
    exact h2
  have hcl : clampLow q = q := by unfold clampLow; rw [if_neg (by omega)]
  have hch : clampHigh q = q := by unfold clampHigh; rw [if_neg (by omega)]
  rw [hcl, hch]
  exact ⟨rfl, hq0, hq100⟩

theorem station_pct_spec_witness :
    station_pct [((0:Int), (100:Int), true), (50, 150, false)] = 66 ∧
      0 ≤ station_pct [((0:Int), (100:Int), true), (50, 150, false)] ∧
      station_pct [((0:Int), (100:Int), true), (50, 150, false)] ≤ 100 :=
  station_pct_spec [(0, 100, true), (50, 150, false)] 0 150
    (by decide) (by decide) (by decide)

/-- C3: a station appearing in the computed results whose chargers have no
reports, or whose derived window satisfies `window_end ≤ window_start`, gets
uptime 0. -/
theorem station_uptime_zero (stc : List (Int × List Int))
    (reports : List (Int × Int × Int × Bool)) (sid pct : Int)
    (hmem : (sid, pct) ∈ compute_station_uptime stc reports)
    (h : collectFor stc reports sid = [] ∨
      ∃ ws we, ((collectFor stc reports sid).map fun r => r.1).min? = some ws ∧
        ((collectFor stc reports sid).map fun r => r.2.1).max? = some we ∧ we ≤ ws) :
    pct = 0 := by
  obtain ⟨sid', _, heq⟩ := List.mem_map.mp hmem
  have h1 : sid' = sid := congrArg Prod.fst heq
  have h2 : station_pct (collectFor stc reports sid') = pct := congrArg Prod.snd heq
  subst h1
  rw [← h2]
  rcases h with h | ⟨ws, we, hmin, hmax, hle⟩
  · rw [h]; rfl
  · unfold station_pct
    rw [hmin, hmax]
    dsimp only
    rw [if_pos hle]

theorem station_uptime_zero_witness : (0:Int) = 0 ∧ (0:Int) = 0 :=
  ⟨station_uptime_zero [(1, [10])] [] 1 0 (by decide) (Or.inl (by decide)),
    station_uptime_zero [(1, [10])] [(10, 5, 5, true)] 1 0 (by decide)
      (Or.inr ⟨5, 5, by decide, by decide, by decide⟩)⟩

/-- C4: the end-to-end example document produces exit status 0 and the single
output line `1 66`. -/
theorem end_to_end_example :
    run ["[Stations]", "1 10 11", "[Charger Availability Reports]",
      "10 0 100 true", "11 50 150 false"] = (0, ["1 66"]) := by
  decide

/-! ## Parser lemmas -/

theorem parse_lines_append : ∀ (pre post : List String) (st st1 : PState),
    parse_lines st pre = .ok st1 →
    parse_lines st (pre ++ post) = parse_lines st1 post
  | [], post, st, st1, h => by
    cases h
    rfl
  | ln :: pre, post, st, st1, h => by
    simp only [List.cons_append, parse_lines] at h ⊢
    cases hp : processLine st ln with
    | error e =>
      rw [hp] at h
      dsimp only at h
      cases h
    | ok st' =>
      rw [hp] at h
      dsimp only at h ⊢
      exact parse_lines_append pre post st' st1 h

theorem run_of_error {lines : List String} {msg : String}
    (h : parse_input lines = .error msg) : run lines = (1, ["error"]) := by
  unfold run
  rw [h]

/-- `processLine` on a non-marker line in station mode. -/
theorem processLine_state1 (st : PState) (ln : String)
    (h0 : ¬ ln = "") (h1 : startsWithChar ln '#' = false)
    (h2 : ¬ ln = "[Stations]") (h3 : ¬ ln = "[Charger Availability Reports]")
    (hstate : st.state = 1) :
    processLine st ln =
      match tokens ln with
      | [] => .ok st
      | t0 :: rest =>
        match toInt? t0 with
        | none => .error ("Invalid station line (station id): " ++ ln)
        | some station_id =>
          match parseChargerIds rest with
          | none => .error ("Invalid charger id on station line: " ++ ln)
          | some charger_ids =>
            match bindChargers station_id st.charger_to_station
                (ensureStation st.station_to_chargers station_id) charger_ids with
            | .error msg => .error msg
            | .ok (cts, stc) =>
              .ok { st with charger_to_station := cts, station_to_chargers := stc } := by
  unfold processLine
  rw [if_neg h0, if_neg (by simp [h1]), if_neg h2, if_neg h3, if_pos hstate]

/-- `processLine` on a non-marker line in report mode. -/
theorem processLine_state2 (st : PState) (ln : String)
    (h0 : ¬ ln = "") (h1 : startsWithChar ln '#' = false)
    (h2 : ¬ ln = "[Stations]") (h3 : ¬ ln = "[Charger Availability Reports]")
    (hstate : st.state = 2) :
    processLine st ln =
      match tokens ln with
      | [] => .ok st
      | t0 :: rest =>
        if startsWithChar t0 '[' then .ok st
        else
          match rest with
          | [t1, t2, t3] =>
            match toInt? t0, toInt? t1, toInt? t2 with
            | some cid, some s, some e =>
              if lowerStr t3 = "true" then
                .ok { st with reports := st.reports ++ [(cid, s, e, true)] }
              else if lowerStr t3 = "false" then
                .ok { st with reports := st.reports ++ [(cid, s, e, false)] }
              else .error ("Invalid up flag (must be true/false): " ++ ln)
            | _, _, _ => .error ("Invalid numeric field in report line: " ++ ln)
          | _ => .error ("Invalid report line (need 4 fields): " ++ ln) := by
  unfold processLine
  rw [if_neg h0, if_neg (by simp [h1]), if_neg h2, if_neg h3,
    if_neg (by omega), if_pos hstate]

/-- The binding loop fails whenever some charger of the line is already bound
to a different station. -/
theorem bindChargers_conflict (sid : Int) :
    ∀ (cids : List Int) (cts : Int → Option Int) (stc : List (Int × List Int))
      (cid s2 : Int), cid ∈ cids → cts cid = some s2 → s2 ≠ sid →
      ∃ c, bindChargers sid cts stc cids =
        .error ("Charger " ++ intToString c ++ " appears under multiple stations.")
  | [], _, _, _, _, h, _, _ => absurd h (List.not_mem_nil _)
  | c :: rest, cts, stc, cid, s2, hmem, hbound, hne => by
    simp only [bindChargers]
    cases hc : cts c with
    | some t =>
      dsimp only
      by_cases ht : t = sid
      · rw [if_neg (fun hh => hh ht)]
        have hcc : c ≠ cid := by
          intro he
          rw [he, hbound] at hc
          cases hc
          exact hne ht
        have hm' : cid ∈ rest := by
          rcases List.mem_cons.mp hmem with h | h
          · exact absurd h.symm hcc
          · exact h
        have hb' : (fun x => if x = c then some sid else cts x) cid = some s2 := by
          show (if cid = c then some sid else cts cid) = some s2
          rw [if_neg (Ne.symm hcc)]
          exact hbound
        exact bindChargers_conflict sid rest _ _ cid s2 hm' hb' hne
      · rw [if_pos ht]
        exact ⟨c, rfl⟩
    | none =>
      dsimp only
      have hcc : c ≠ cid := by
        intro he
        rw [he, hbound] at hc
        cases hc
      have hm' : cid ∈ rest := by
        rcases List.mem_cons.mp hmem with h | h
        · exact absurd h.symm hcc
        · exact h
      have hb' : (fun x => if x = c then some sid else cts x) cid = some s2 := by
        show (if cid = c then some sid else cts cid) = some s2
        rw [if_neg (Ne.symm hcc)]
        exact hbound
      exact bindChargers_conflict sid rest _ _ cid s2 hm' hb' hne

theorem addCharger_keys (stc : List (Int × List Int)) (sid cid : Int) :
    (addCharger stc sid cid).map Prod.fst = stc.map Prod.fst := by
  unfold addCharger
  rw [List.map_map]
  apply List.map_congr_left
  intro p _
  by_cases h : p.1 = sid <;> simp [h]

theorem addCharger_cons (k : Int) (v : List Int) (rest : List (Int × List Int))
    (sid cid : Int) :
    addCharger ((k, v) :: rest) sid cid =
      (if k = sid then (k, if cid ∈ v then v else v ++ [cid]) else (k, v))
        :: addCharger rest sid cid := by
  simp only [addCharger, List.map_cons]

theorem lookupChargers_cons (k : Int) (v : List Int) (rest : List (Int × List Int))
    (sid : Int) :
    lookupChargers ((k, v) :: rest) sid = if k = sid then v else lookupChargers rest sid := by
  unfold lookupChargers
  by_cases h : k = sid
  · rw [if_pos h, List.find?_cons_of_pos _ (by simp [h])]
  · rw [if_neg h, List.find?_cons_of_neg _ (by simp [h])]

theorem lookupChargers_addCharger (sid cid : Int) :
    ∀ (stc : List (Int × List Int)), sid ∈ stc.map Prod.fst →
      ∀ c : Int, c ∈ lookupChargers (addCharger stc sid cid) sid ↔
        c ∈ lookupChargers stc sid ∨ c = cid
  | [], hkey, _ => by simp at hkey
  | (k, v) :: rest, hkey, c => by
    rw [addCharger_cons, lookupChargers_cons]
    by_cases hk : k = sid
    · rw [if_pos hk, if_pos hk, lookupChargers_cons, if_pos hk]
      by_cases hcv : cid ∈ v
      · rw [if_pos hcv]
        exact ⟨fun h => Or.inl h, fun h => h.elim id fun he => he ▸ hcv⟩
      · rw [if_neg hcv]
        simp
    · have hkey' : sid ∈ rest.map Prod.fst := by
        have hmm : sid ∈ ((k, v) :: rest).map Prod.fst := hkey
        rw [List.map_cons] at hmm
        rcases List.mem_cons.mp hmm with h | h
        · exact absurd h.symm hk
        · exact h
      rw [if_neg hk, if_neg hk, lookupChargers_cons, if_neg hk]
      exact lookupChargers_addCharger sid cid rest hkey' c

theorem ensureStation_key (stc : List (Int × List Int)) (sid : Int) :
    sid ∈ (ensureStation stc sid).map Prod.fst := by
  unfold ensureStation
  by_cases h : (stc.find? fun p => p.1 == sid).isSome = true
  · rw [if_pos h]
    obtain ⟨q, hfind⟩ := Option.isSome_iff_exists.mp h
    have hq : q ∈ stc := List.mem_of_find?_eq_some hfind
    have hqe := List.find?_some hfind
    exact List.mem_map.mpr ⟨q, hq, by simpa using hqe⟩
  · rw [if_neg h, List.map_append]
    simp

theorem lookupChargers_ensureStation (stc : List (Int × List Int)) (sid : Int) :
    lookupChargers (ensureStation stc sid) sid = lookupChargers stc sid := by
  unfold ensureStation
  by_cases h : (stc.find? fun p => p.1 == sid).isSome = true
  · rw [if_pos h]
  · rw [if_neg h]
    have h0 : stc.find? (fun p => p.1 == sid) = none := by
      cases hf : stc.find? fun p => p.1 == sid
      · rfl
      · rw [hf] at h; simp at h
    unfold lookupChargers
    rw [List.find?_append, h0, Option.none_or, List.find?_cons_of_pos _ (by simp)]

theorem ensureStation_keys_nodup (stc : List (Int × List Int)) (sid : Int)
    (hn : (stc.map Prod.fst).Nodup) :
    ((ensureStation stc sid).map Prod.fst).Nodup := by
  unfold ensureStation
  by_cases h : (stc.find? fun p => p.1 == sid).isSome = true
  · rw [if_pos h]; exact hn
  · rw [if_neg h]
    have h0 : stc.find? (fun p => p.1 == sid) = none := by
      cases hf : stc.find? fun p => p.1 == sid
      · rfl
      · rw [hf] at h; simp at h
    have h1 : ∀ p ∈ stc, ¬ ((p.1 == sid) = true) := List.find?_eq_none.mp h0
    rw [List.map_append, List.nodup_append]
    refine ⟨hn, by simp, ?_⟩
    intro a ha hb
    obtain ⟨p, hp, he⟩ := List.mem_map.mp ha
    have hb' : a = sid := by simpa using hb
    exact h1 p hp (by simp [he, hb'])

theorem bindChargers_keys (sid : Int) :
    ∀ (cids : List Int) (cts : Int → Option Int) (stc : List (Int × List Int))
      (cts' : Int → Option Int) (stc' : List (Int × List Int)),
      bindChargers sid cts stc cids = .ok (cts', stc') →
      stc'.map Prod.fst = stc.map Prod.fst
  | [], cts, stc, cts', stc', h => by
    injection h with h1
    injection h1 with h2 h3
    rw [← h3]
  | cid :: rest, cts, stc, cts', stc', h => by
    simp only [bindChargers] at h
    cases hc : cts cid with
    | some t =>
      rw [hc] at h
      dsimp only at h
      by_cases ht : t ≠ sid
      · rw [if_pos ht] at h; cases h
      · rw [if_neg ht] at h
        rw [bindChargers_keys sid rest _ _ _ _ h, addCharger_keys]
    | none =>
      rw [hc] at h
      dsimp only at h
      rw [bindChargers_keys sid rest _ _ _ _ h, addCharger_keys]

/-- The binding loop succeeds when no charger of the line is bound to another
station, preserving the key sequence and extending the station's charger set
by exactly the listed ids. -/
theorem bindChargers_ok (sid : Int) :
    ∀ (cids : List Int) (cts : Int → Option Int) (stc : List (Int × List Int)),
      (∀ c ∈ cids, cts c = none ∨ cts c = some sid) →
      sid ∈ stc.map Prod.fst →
      ∃ cts' stc', bindChargers sid cts stc cids = .ok (cts', stc') ∧
        stc'.map Prod.fst = stc.map Prod.fst ∧
        (∀ c : Int, c ∈ lookupChargers stc' sid ↔
          c ∈ lookupChargers stc sid ∨ c ∈ cids)
  | [], cts, stc, _, _ => ⟨cts, stc, rfl, rfl, fun c => by simp⟩
  | cid :: rest, cts, stc, h, hkey => by
    have hupd : ∀ c ∈ rest, (fun x => if x = cid then some sid else cts x) c = none ∨
        (fun x => if x = cid then some sid else cts x) c = some sid := by
      intro c hc
      show (if c = cid then some sid else cts c) = none ∨
        (if c = cid then some sid else cts c) = some sid
      by_cases hcc : c = cid
      · rw [if_pos hcc]
        exact Or.inr rfl
      · rw [if_neg hcc]
        exact h c (List.mem_cons_of_mem _ hc)
    have hkey' : sid ∈ (addCharger stc sid cid).map Prod.fst := by
      rw [addCharger_keys]; exact hkey
    obtain ⟨cts', stc', hbind, hkeys, hmem⟩ :=
      bindChargers_ok sid rest (fun x => if x = cid then some sid else cts x)
        (addCharger stc sid cid) hupd hkey'
    have hkeys' : stc'.map Prod.fst = stc.map Prod.fst :=
      hkeys.trans (addCharger_keys stc sid cid)
    have hmem' : ∀ c : Int, c ∈ lookupChargers stc' sid ↔
        c ∈ lookupChargers stc sid ∨ c ∈ cid :: rest := by
      intro c
      rw [hmem c, lookupChargers_addCharger sid cid stc hkey c, List.mem_cons]
      tauto
    rcases h cid (List.mem_cons_self _ _) with hc | hc
    · refine ⟨cts', stc', ?_, hkeys', hmem'⟩
      simp only [bindChargers]
      rw [hc]
      dsimp only
      exact hbind
    · refine ⟨cts', stc', ?_, hkeys', hmem'⟩
      simp only [bindChargers]
      rw [hc]
      dsimp only
      rw [if_neg (fun hh => hh rfl)]
      exact hbind

/-- C5: a charger id on a station line that is already bound to a different
station makes the whole run fail; re-binding to the same station succeeds. -/
theorem charger_conflict_spec
    (lines pre post : List String) (st1 : PState) (ln t0 : String)
    (rest : List String) (sid : Int) (cids : List Int)
    (hsplit : lines.map trimLine = pre ++ ln :: post)
    (hpre : parse_lines initState pre = .ok st1)
    (hstate : st1.state = 1)
    (h0 : ¬ ln = "") (h1 : startsWithChar ln '#' = false)
    (h2 : ¬ ln = "[Stations]") (h3 : ¬ ln = "[Charger Availability Reports]")
    (htok : tokens ln = t0 :: rest)
    (ht0 : toInt? t0 = some sid)
    (hcs : parseChargerIds rest = some cids) :
    (∀ cid s2, cid ∈ cids → st1.charger_to_station cid = some s2 → s2 ≠ sid →
      run lines = (1, ["error"]) ∧
      ∃ c, parse_input lines =
        .error ("Charger " ++ intToString c ++ " appears under multiple stations.")) ∧
    ((∀ c ∈ cids, st1.charger_to_station c = none ∨
        st1.charger_to_station c = some sid) →
      ∃ st2, processLine st1 ln = .ok st2) := by
  have hdisp := processLine_state1 st1 ln h0 h1 h2 h3 hstate
  rw [htok] at hdisp
  dsimp only at hdisp
  rw [ht0] at hdisp
  dsimp only at hdisp
  rw [hcs] at hdisp
  dsimp only at hdisp
  constructor
  · intro cid s2 hmem hbound hne
    obtain ⟨c, hb⟩ := bindChargers_conflict sid cids st1.charger_to_station
      (ensureStation st1.station_to_chargers sid) cid s2 hmem hbound hne
    rw [hb] at hdisp
    dsimp only at hdisp
    have hparse : parse_input lines =
        .error ("Charger " ++ intToString c ++ " appears under multiple stations.") := by
      show parse_lines initState (lines.map trimLine) = _
      rw [hsplit, parse_lines_append pre (ln :: post) initState st1 hpre]
      simp only [parse_lines]
      rw [hdisp]
    exact ⟨run_of_error hparse, c, hparse⟩
  · intro hnoconf
    obtain ⟨cts', stc', hbind, _, _⟩ := bindChargers_ok sid cids st1.charger_to_station
      (ensureStation st1.station_to_chargers sid) hnoconf (ensureStation_key _ _)
    rw [hbind] at hdisp
    dsimp only at hdisp
    exact ⟨_, hdisp⟩

theorem charger_conflict_spec_witness :
    (run ["[Stations]", "1 5", "2 5"] = (1, ["error"]) ∧
      ∃ c, parse_input ["[Stations]", "1 5", "2 5"] =
        .error ("Charger " ++ intToString c ++ " appears under multiple stations.")) ∧
      ∃ st2, processLine
        ⟨1, [(1, [5])], fun c => if c = 5 then some 1 else none, []⟩ "1 5" = .ok st2 :=
  ⟨(charger_conflict_spec ["[Stations]", "1 5", "2 5"] ["[Stations]", "1 5"] []
      ⟨1, [(1, [5])], fun c => if c = 5 then some 1 else none, []⟩
      "2 5" "2" ["5"] 2 [5] (by decide) rfl rfl (by decide) (by decide) (by decide)
      (by decide) (by decide) (by decide) (by decide)).1 5 1 (by decide) rfl (by decide),
    (charger_conflict_spec ["[Stations]", "1 5", "1 5"] ["[Stations]", "1 5"] []
      ⟨1, [(1, [5])], fun c => if c = 5 then some 1 else none, []⟩
      "1 5" "1" ["5"] 1 [5] (by decide) rfl rfl (by decide) (by decide) (by decide)
      (by decide) (by decide) (by decide) (by decide)).2 (by decide)⟩

/-- C10: a station line whose station id already has an entry extends that
station's charger set (union semantics) instead of replacing it or raising a
duplicate-station error. -/
theorem duplicate_station_extends
    (st1 : PState) (ln t0 : String) (rest : List String) (sid : Int)
    (cids cs0 : List Int)
    (hstate : st1.state = 1)
    (h0 : ¬ ln = "") (h1 : startsWithChar ln '#' = false)
    (h2 : ¬ ln = "[Stations]") (h3 : ¬ ln = "[Charger Availability Reports]")
    (htok : tokens ln = t0 :: rest)
    (ht0 : toInt? t0 = some sid)
    (hcs : parseChargerIds rest = some cids)
    (hfind : st1.station_to_chargers.find? (fun p => p.1 == sid) = some (sid, cs0))
    (hnoconf : ∀ c ∈ cids, st1.charger_to_station c = none ∨
      st1.charger_to_station c = some sid) :
    ∃ st2, processLine st1 ln = .ok st2 ∧
      st2.station_to_chargers.map Prod.fst = st1.station_to_chargers.map Prod.fst ∧
      (∀ c : Int, c ∈ lookupChargers st2.station_to_chargers sid ↔
        c ∈ cs0 ∨ c ∈ cids) := by
  have hdisp := processLine_state1 st1 ln h0 h1 h2 h3 hstate
  rw [htok] at hdisp
  dsimp only at hdisp
  rw [ht0] at hdisp
  dsimp only at hdisp
  rw [hcs] at hdisp
  dsimp only at hdisp
  have hsome : (st1.station_to_chargers.find? fun p => p.1 == sid).isSome = true := by
    rw [hfind]; rfl
  have hens : ensureStation st1.station_to_chargers sid = st1.station_to_chargers := by
    unfold ensureStation
    rw [if_pos hsome]
  rw [hens] at hdisp
  have hkeymem : sid ∈ st1.station_to_chargers.map Prod.fst :=
    List.mem_map.mpr ⟨(sid, cs0), List.mem_of_find?_eq_some hfind, rfl⟩
  obtain ⟨cts', stc', hbind, hkeys, hmem⟩ := bindChargers_ok sid cids
    st1.charger_to_station st1.station_to_chargers hnoconf hkeymem
  rw [hbind] at hdisp
  dsimp only at hdisp
  have hlook : lookupChargers st1.station_to_chargers sid = cs0 := by
    unfold lookupChargers
    rw [hfind]
  refine ⟨_, hdisp, hkeys, fun c => ?_⟩
  have hc := hmem c
  rw [hlook] at hc
  exact hc

theorem duplicate_station_extends_witness :
    ∃ st2, processLine
        ⟨1, [(1, [5])], fun c => if c = 5 then some 1 else none, []⟩ "1 6" = .ok st2 ∧
      st2.station_to_chargers.map Prod.fst
        = ([((1:Int), [(5:Int)])]).map Prod.fst ∧
      (∀ c : Int, c ∈ lookupChargers st2.station_to_chargers 1 ↔
        c ∈ [(5:Int)] ∨ c ∈ [(6:Int)]) :=
  duplicate_station_extends
    ⟨1, [(1, [5])], fun c => if c = 5 then some 1 else none, []⟩
    "1 6" "1" ["6"] 1 [6] [5] rfl (by decide) (by decide) (by decide) (by decide)
    (by decide) (by decide) (by decide) (by decide) (by decide)

/-- A line on which `processLine` fails makes the whole run emit the stdout
sentinel `error` with a non-zero exit status. -/
theorem run_error_of_processLine
    (lines pre post : List String) (st1 : PState) (ln msg : String)
    (hsplit : lines.map trimLine = pre ++ ln :: post)
    (hpre : parse_lines initState pre = .ok st1)
    (hproc : processLine st1 ln = .error msg) :
    run lines = (1, ["error"]) := by
  apply run_of_error
  show parse_lines initState (lines.map trimLine) = _
  rw [hsplit, parse_lines_append pre (ln :: post) initState st1 hpre]
  simp only [parse_lines]
  rw [hproc]

/-- C6: in report mode a non-marker line must split into exactly 4 fields
with integer id, start, end and a case-insensitive `true`/`false` flag; any
deviation fails the run with the stdout sentinel `error` and exit status 1,
while lines whose first token begins with `[` are skipped. -/
theorem report_line_validation
    (lines pre post : List String) (st1 : PState) (ln t0 : String)
    (rest : List String)
    (hsplit : lines.map trimLine = pre ++ ln :: post)
    (hpre : parse_lines initState pre = .ok st1)
    (hstate : st1.state = 2)
    (h0 : ¬ ln = "") (h1 : startsWithChar ln '#' = false)
    (h2 : ¬ ln = "[Stations]") (h3 : ¬ ln = "[Charger Availability Reports]")
    (htok : tokens ln = t0 :: rest) :
    (startsWithChar t0 '[' = true → processLine st1 ln = .ok st1) ∧
    (startsWithChar t0 '[' = false →
      ¬(∃ t1 t2 t3 cid s e, rest = [t1, t2, t3] ∧ toInt? t0 = some cid ∧
          toInt? t1 = some s ∧ toInt? t2 = some e ∧
          (lowerStr t3 = "true" ∨ lowerStr t3 = "false")) →
      run lines = (1, ["error"])) ∧
    (startsWithChar t0 '[' = false →
      (∃ t1 t2 t3 cid s e, rest = [t1, t2, t3] ∧ toInt? t0 = some cid ∧
          toInt? t1 = some s ∧ toInt? t2 = some e ∧
          (lowerStr t3 = "true" ∨ lowerStr t3 = "false")) →
      ∃ st2, processLine st1 ln = .ok st2) := by
  have hdisp := processLine_state2 st1 ln h0 h1 h2 h3 hstate
  rw [htok] at hdisp
  dsimp only at hdisp
  refine ⟨?_, ?_, ?_⟩
  · intro hbr
    rw [hbr, if_pos rfl] at hdisp
    exact hdisp
  · intro hbr hnwf
    rw [hbr, if_neg Bool.false_ne_true] at hdisp
    rcases rest with _ | ⟨t1, _ | ⟨t2, _ | ⟨t3, _ | ⟨t4, rest4⟩⟩⟩⟩
    · try dsimp only at hdisp
      exact run_error_of_processLine lines pre post st1 ln _ hsplit hpre hdisp
    · try dsimp only at hdisp
      exact run_error_of_processLine lines pre post st1 ln _ hsplit hpre hdisp
    · try dsimp only at hdisp
      exact run_error_of_processLine lines pre post st1 ln _ hsplit hpre hdisp
    · try dsimp only at hdisp
      cases hti0 : toInt? t0 with
      | none =>
        rw [hti0] at hdisp
        dsimp only at hdisp
        exact run_error_of_processLine lines pre post st1 ln _ hsplit hpre hdisp
      | some cid =>
        rw [hti0] at hdisp
        cases hti1 : toInt? t1 with
        | none =>
          rw [hti1] at hdisp
          dsimp only at hdisp
          exact run_error_of_processLine lines pre post st1 ln _ hsplit hpre hdisp
        | some s =>
          rw [hti1] at hdisp
          cases hti2 : toInt? t2 with
          | none =>
            rw [hti2] at hdisp
            dsimp only at hdisp
            exact run_error_of_processLine lines pre post st1 ln _ hsplit hpre hdisp
          | some e =>
            rw [hti2] at hdisp
            dsimp only at hdisp
            have hne1 : ¬ lowerStr t3 = "true" := fun hf =>
              hnwf ⟨t1, t2, t3, cid, s, e, rfl, hti0, hti1, hti2, Or.inl hf⟩
            have hne2 : ¬ lowerStr t3 = "false" := fun hf =>
              hnwf ⟨t1, t2, t3, cid, s, e, rfl, hti0, hti1, hti2, Or.inr hf⟩
            rw [if_neg hne1, if_neg hne2] at hdisp
            exact run_error_of_processLine lines pre post st1 ln _ hsplit hpre hdisp
    · try dsimp only at hdisp
      exact run_error_of_processLine lines pre post st1 ln _ hsplit hpre hdisp
  · intro hbr hwf
    rw [hbr, if_neg Bool.false_ne_true] at hdisp
    obtain ⟨t1, t2, t3, cid, s, e, hrest, hti0, hti1, hti2, hflag⟩ := hwf
    subst hrest
    try dsimp only at hdisp
    rw [hti0, hti1, hti2] at hdisp
    dsimp only at hdisp
    rcases hflag with hflag | hflag
    · rw [if_pos hflag] at hdisp
      exact ⟨_, hdisp⟩
    · have hne1 : ¬ lowerStr t3 = "true" := by
        intro hf
        have : ("true" : String) = "false" := hf.symm.trans hflag
        exact absurd this (by decide)
      rw [if_neg hne1, if_pos hflag] at hdisp
      exact ⟨_, hdisp⟩

theorem report_line_validation_witness :
    processLine ⟨2, [], fun _ => none, []⟩ "[stray]"
        = .ok ⟨2, [], fun _ => none, []⟩ ∧
      run ["[Charger Availability Reports]", "1 0 100"] = (1, ["error"]) ∧
      ∃ st2, processLine ⟨2, [], fun _ => none, []⟩ "10 0 100 true" = .ok st2 :=
  ⟨(report_line_validation ["[Charger Availability Reports]", "[stray]"]
      ["[Charger Availability Reports]"] [] ⟨2, [], fun _ => none, []⟩
      "[stray]" "[stray]" [] (by decide) rfl rfl (by decide) (by decide)
      (by decide) (by decide) (by decide)).1 (by decide),
    (report_line_validation ["[Charger Availability Reports]", "1 0 100"]
      ["[Charger Availability Reports]"] [] ⟨2, [], fun _ => none, []⟩
      "1 0 100" "1" ["0", "100"] (by decide) rfl rfl (by decide) (by decide)
      (by decide) (by decide) (by decide)).2.1 (by decide)
      (by rintro ⟨u1, u2, u3, cid, s, e, hr, -⟩; simp at hr),
    (report_line_validation ["[Charger Availability Reports]", "10 0 100 true"]
      ["[Charger Availability Reports]"] [] ⟨2, [], fun _ => none, []⟩
      "10 0 100 true" "10" ["0", "100", "true"] (by decide) rfl rfl (by decide)
      (by decide) (by decide) (by decide) (by decide)).2.2 (by decide)
      ⟨"0", "100", "true", 10, 0, 100, rfl, by decide, by decide, by decide,
        Or.inl (by decide)⟩⟩


/-- One accepted line preserves distinctness of the station keys. -/
theorem processLine_keys_nodup {st st' : PState} {ln : String}
    (hn : (st.station_to_chargers.map Prod.fst).Nodup)
    (h : processLine st ln = .ok st') :
    (st'.station_to_chargers.map Prod.fst).Nodup := by
  unfold processLine at h
  split at h
  · cases h; exact hn
  split at h
  · cases h; exact hn
  split at h
  · cases h; exact hn
  split at h
  · cases h; exact hn
  split at h
  · -- station mode
    split at h
    · cases h; exact hn
    split at h
    · cases h
    split at h
    · cases h
    split at h
    · cases h
    · rename_i cts2 stc2 hbind
      cases h
      show (stc2.map Prod.fst).Nodup
      rw [bindChargers_keys _ _ _ _ _ _ hbind]
      exact ensureStation_keys_nodup _ _ hn
  split at h
  · -- report mode
    repeat' split at h
    all_goals try (cases h; exact hn)
    all_goals cases h
  · cases h; exact hn

/-- Parsing from any state with distinct station keys keeps them distinct. -/
theorem parse_keys_nodup : ∀ (lns : List String) (st st' : PState),
    parse_lines st lns = .ok st' →
    (st.station_to_chargers.map Prod.fst).Nodup →
    (st'.station_to_chargers.map Prod.fst).Nodup
  | [], st, st', h, hn => by cases h; exact hn
  | ln :: lns, st, st', h, hn => by
    simp only [parse_lines] at h
    cases hp : processLine st ln with
    | error e =>
      rw [hp] at h
      dsimp only at h
      cases h
    | ok st1 =>
      rw [hp] at h
      dsimp only at h
      exact parse_keys_nodup lns st1 st' h (processLine_keys_nodup hn hp)

/-- C9: on success the program prints exactly one line per station of the
parsed model, in strictly ascending station-id order, each formatted as the
station id, a space, and the percentage, and nothing else. -/
theorem output_format (lines : List String) (st : PState)
    (hok : parse_input lines = .ok st) :
    (run lines).1 = 0 ∧
    ∃ sids : List Int,
      (run lines).2 = sids.map (fun sid =>
        intToString sid ++ " " ++
          intToString (station_pct (collectFor st.station_to_chargers st.reports sid))) ∧
      sids.Perm (st.station_to_chargers.map Prod.fst) ∧
      sids.Sorted (· < ·) := by
  have hrun : run lines = (0, output_lines
      (compute_station_uptime st.station_to_chargers st.reports)) := by
    unfold run
    rw [hok]
  have hnodup : (st.station_to_chargers.map Prod.fst).Nodup :=
    parse_keys_nodup (lines.map trimLine) initState st hok List.nodup_nil
  refine ⟨by rw [hrun],
    ⟨(st.station_to_chargers.map Prod.fst).insertionSort (· ≤ ·), ?_,
      List.perm_insertionSort _ _, ?_⟩⟩
  · rw [hrun]
    show output_lines (compute_station_uptime st.station_to_chargers st.reports) = _
    unfold output_lines compute_station_uptime
    rw [List.map_map]
    rfl
  · have hsorted :
        ((st.station_to_chargers.map Prod.fst).insertionSort (· ≤ ·)).Sorted (· ≤ ·) :=
      List.sorted_insertionSort _ _
    have hnd : ((st.station_to_chargers.map Prod.fst).insertionSort (· ≤ ·)).Nodup :=
      (List.perm_insertionSort _ _).nodup_iff.mpr hnodup
    exact hsorted.lt_of_le hnd

theorem output_format_witness :
    (run ["[Stations]", "1 10 11", "[Charger Availability Reports]",
        "10 0 100 true", "11 50 150 false"]).1 = 0 ∧
    ∃ sids : List Int,
      (run ["[Stations]", "1 10 11", "[Charger Availability Reports]",
        "10 0 100 true", "11 50 150 false"]).2 = sids.map (fun sid =>
        intToString sid ++ " " ++
          intToString (station_pct (collectFor [(1, [10, 11])]
            [(10, 0, 100, true), (11, 50, 150, false)] sid))) ∧
      sids.Perm (([((1:Int), [(10:Int), 11])]).map Prod.fst) ∧
      sids.Sorted (· < ·) :=
  output_format ["[Stations]", "1 10 11", "[Charger Availability Reports]",
      "10 0 100 true", "11 50 150 false"]
    ⟨2, [(1, [10, 11])],
      fun c => if c = 11 then some 1 else if c = 10 then some 1 else none,
      [(10, 0, 100, true), (11, 50, 150, false)]⟩ rfl


end StationUptime
